import Mathlib

/-!
Verification development for the LinkedIn identity-resolution engine of the
`vfx-cred` repository (`src/services/linkedin_lookup.py`).

The Python module is shallowly embedded: every helper of the source file is
translated to an executable Lean definition over `List Char` strings, a
Python-value type `PVal` for the loosely structured candidate records, and an
exact fraction type `Frac` standing for the non-negative float scores the
source computes (all scores are ratios `matches / len(tokens)` of small
naturals, for which exact rational arithmetic coincides with float
arithmetic).  Module-level mutable globals (`_CACHE`, `_CLIENT`,
`_CLIENT_INITIALIZED`, call counters for the semaphore / throttle / backend)
become an explicit `EngineState` threaded through the entry points, and the
`linkdapi` backend becomes an explicit `Backend` record of oracles.
-/

/-! ## Character and character-list utilities (Python `str` operations) -/

/-- ASCII lower-casing of one character, as used by `str.lower` on the
ASCII inputs the engine handles. -/
def pyLowerChar (c : Char) : Char :=
  if 'A' ≤ c ∧ c ≤ 'Z' then Char.ofNat (c.toNat + 32) else c

/-- Lower-case a whole string given as a character list. -/
def lowerData (cs : List Char) : List Char := cs.map pyLowerChar

/-- Whitespace recognised by Python's `str.strip` / `\s` for ASCII input. -/
def isPySpace (c : Char) : Bool :=
  c = ' ' || c = '\t' || c = '\n' || c = '\r' || c = '\x0b' || c = '\x0c'

/-- Python `str.strip()`: drop leading and trailing whitespace. -/
def pyStripData (cs : List Char) : List Char :=
  ((cs.dropWhile isPySpace).reverse.dropWhile isPySpace).reverse

/-- Python's substring test `tok in text`. -/
def containsTok (tok text : List Char) : Bool :=
  text.tails.any (fun suf => tok.isPrefixOf suf)

/-- Characters of the regex class `[a-z0-9]` from `_tokenize_job`. -/
def isAlnumChar (c : Char) : Bool :=
  ('a' ≤ c && c ≤ 'z') || ('0' ≤ c && c ≤ '9')

/-- Python `" ".join(parts)` on character lists. -/
def joinSpace : List (List Char) → List Char
  | [] => []
  | [p] => p
  | p :: rest => p ++ ' ' :: joinSpace rest

/-! ## Exact fractions standing for the float scores -/

/-- Exact non-negative fraction; the image of every float score the engine
computes (`matches / len(tokens)` with small naturals, exactly ordered the
same way as the corresponding floats). -/
structure Frac where
  num : Nat
  den : Nat
deriving DecidableEq, Repr

/-- Semantic value of a fraction as a rational. -/
def Frac.toQ (f : Frac) : ℚ := (f.num : ℚ) / (f.den : ℚ)

/-- The float `0.0`. -/
def Frac.zero : Frac := ⟨0, 1⟩

/-- Strict float comparison `a < b` (cross multiplication; all fractions the
engine builds have positive denominator). -/
def Frac.ltB (a b : Frac) : Bool := a.num * b.den < b.num * a.den

/-- Python's `best_score > 0` test. -/
def Frac.posB (a : Frac) : Bool := 0 < a.num

/-- Python `round(x, 2)` (round-half-to-even, as on exactly representable
floats); the engine only rounds scores for the reported confidence. -/
def Frac.round2 (q : Frac) : Frac :=
  let n := q.num * 100
  let d := q.den
  let f := n / d
  let r := n % d
  let rounded : Nat :=
    if 2 * r < d then f
    else if d < 2 * r then f + 1
    else if f % 2 = 0 then f else f + 1
  ⟨rounded, 100⟩

/-! ## Python values: the loosely structured backend payloads -/

/-- Loosely structured Python value as it appears in backend responses:
`None`, a string, a list, or a dict with string keys. -/
inductive PVal where
  | vnone : PVal
  | vstr : String → PVal
  | vlist : List PVal → PVal
  | vdict : List (String × PVal) → PVal

/-- Python dicts are embedded as association lists. -/
abbrev PDict := List (String × PVal)

/-- Python `d.get(key)`: the stored value, or `None` when absent. -/
def dget (d : PDict) (key : String) : PVal :=
  match d.find? (fun e => e.1 = key) with
  | some e => e.2
  | none => PVal.vnone

/-- Python truthiness of a value (`bool(v)`). -/
def pyTruthy : PVal → Bool
  | PVal.vnone => false
  | PVal.vstr s => !s.isEmpty
  | PVal.vlist l => !l.isEmpty
  | PVal.vdict d => !d.isEmpty

/-- Python `a or b`: the left operand when truthy, otherwise the right. -/
def pyOr (a b : PVal) : PVal := if pyTruthy a then a else b

/-! ## Tokenizer (`_tokenize_job`, `_split_name`) and cache key -/

/-- Faithful model of `re.split(r"[^a-z0-9]+", s)`: pieces between maximal
separator runs, keeping the empty boundary pieces the regex split produces.
The second argument is `some cur` while a piece is being accumulated and
`none` while inside a separator run. -/
def reSplitNonAlnum : List Char → Option (List Char) → List (List Char)
  | [], some cur => [cur.reverse]
  | [], none => [[]]
  | c :: rest, some cur =>
      if isAlnumChar c then reSplitNonAlnum rest (some (c :: cur))
      else cur.reverse :: reSplitNonAlnum rest none
  | c :: rest, none =>
      if isAlnumChar c then reSplitNonAlnum rest (some [c])
      else reSplitNonAlnum rest none

/-- Source `_tokenize_job`: lower-case, split on runs of non-`[a-z0-9]`
characters, keep tokens of length greater than 2. -/
def tokenizeJob (job : String) : List (List Char) :=
  (reSplitNonAlnum (lowerData job.data) (some [])).filter (fun t => 2 < t.length)

/-- Maximal runs of characters satisfying `keep` (used both for
whitespace-splitting names and as the specification-side reading of the
tokenizer's splitting). -/
def runsBy (keep : Char → Bool) : List Char → List Char → List (List Char)
  | [], cur => if cur.isEmpty then [] else [cur.reverse]
  | c :: rest, cur =>
      if keep c then runsBy keep rest (c :: cur)
      else if cur.isEmpty then runsBy keep rest []
      else cur.reverse :: runsBy keep rest []

/-- Source `_split_name`: whitespace words of the stripped full name; first
word is `first`, the rest re-joined with single spaces is `last`. -/
def splitName (fullName : String) : Option String × Option String :=
  let parts := runsBy (fun c => !isPySpace c) (pyStripData fullName.data) []
  match parts with
  | [] => (none, none)
  | [p] => (some (String.mk p), none)
  | p :: rest => (some (String.mk p), some (String.mk (joinSpace rest)))

/-- Source `_cache_key`: `person_id or ""`, the stripped lower-cased name and
job, joined with `|`. -/
def cacheKey (name job : String) (tmdbPersonId : Option String) : String :=
  let personPart := match tmdbPersonId with
    | some s => s
    | none => ""
  personPart ++ "|" ++ String.mk (lowerData (pyStripData name.data))
    ++ "|" ++ String.mk (lowerData (pyStripData job.data))

/-! ## Candidate scorer (`_candidate_text`, `_profile_text`, `_score_text`) -/

/-- Keys read by `_candidate_text`, in source order. -/
def candidateTextKeys : List String :=
  ["headline", "occupation", "summary", "title", "description"]

/-- Nonempty string fields of a dict at the given keys, in order
(`isinstance(value, str) and value`). -/
def strParts (d : PDict) (keys : List String) : List (List Char) :=
  keys.filterMap (fun k =>
    match dget d k with
    | PVal.vstr s => if s.isEmpty then none else some s.data
    | _ => none)

/-- Source `_candidate_text`: join the text fields of a search candidate and
lower-case; the location (`location or locationName`) is appended whenever it
is a string, even an empty one. -/
def candidateText (c : PDict) : List Char :=
  let parts := strParts c candidateTextKeys
  let location := pyOr (dget c "location") (dget c "locationName")
  let parts := match location with
    | PVal.vstr s => parts ++ [s.data]
    | _ => parts
  lowerData (joinSpace parts)

/-- Keys read by `_profile_text` from the profile itself, in source order. -/
def profileTextKeys : List String :=
  ["headline", "summary", "about", "industryName", "industry", "fullName"]

/-- Keys read by `_profile_text` from each experience item, in source order. -/
def experienceItemKeys : List String := ["title", "companyName", "description"]

/-- Source `_profile_text`: profile fields plus every experience item's
title/company/description, joined and lower-cased. -/
def profileText (p : PDict) : List Char :=
  let parts := strParts p profileTextKeys
  let experience := pyOr (dget p "experience") (dget p "positions")
  let experience := match experience with
    | PVal.vdict d => pyOr (dget d "positions") (dget d "items")
    | v => v
  let parts := match experience with
    | PVal.vlist items =>
        parts ++ items.flatMap (fun item =>
          match item with
          | PVal.vdict d => strParts d experienceItemKeys
          | _ => [])
    | _ => parts
  lowerData (joinSpace parts)

/-- Source `_score_text`: `0.0` on empty text or empty token list, otherwise
the fraction of tokens occurring as substrings of the text (`0.0` when none
does). -/
def scoreText (text : List Char) (tokens : List (List Char)) : Frac :=
  if text.isEmpty || tokens.isEmpty then Frac.zero
  else
    let numMatches := tokens.countP (fun tok => containsTok tok text)
    if numMatches = 0 then Frac.zero
    else ⟨numMatches, tokens.length⟩

/-! ## Identifier and name extraction -/

/-- Keys probed by `_extract_public_identifier`, in source order. -/
def publicIdKeys : List String :=
  ["publicIdentifier", "public_identifier", "username", "profileId", "id"]

/-- First nonempty string value among the given keys, stripped
(the key-probing loop of `_extract_public_identifier`). -/
def extractFromKeys (d : PDict) : List String → Option String
  | [] => none
  | k :: ks =>
      match dget d k with
      | PVal.vstr s => if s.isEmpty then extractFromKeys d ks
                       else some (String.mk (pyStripData s.data))
      | _ => extractFromKeys d ks

/-- Index of the first occurrence of `sep` in `s`, if any. -/
def findOcc (sep s : List Char) : Option Nat :=
  (List.range (s.length + 1)).find? (fun i => sep.isPrefixOf (s.drop i))

/-- Suffix of `s` after the last (non-overlapping, left-to-right) occurrence
of `sep`: Python `s.split(sep)[-1]`.  The fuel argument starts at `s.length`
and bounds the number of occurrences skipped. -/
def afterLastSep (sep : List Char) : Nat → List Char → List Char
  | 0, s => s
  | fuel + 1, s =>
      match findOcc sep s with
      | none => s
      | some i => afterLastSep sep fuel (s.drop (i + sep.length))

/-- Python `slug.strip("/")`. -/
def stripSlashes (cs : List Char) : List Char :=
  ((cs.dropWhile (· = '/')).reverse.dropWhile (· = '/')).reverse

/-- The marker substring used when mining a profile URL for a slug. -/
def linkedinMarker : List Char := "linkedin.com/in/".data

/-- Source `_extract_public_identifier`: first nonempty string among the id
keys (stripped), else the slug mined from `profileUrl or url` when it
contains `linkedin.com/in/`. -/
def extractPublicIdentifier (c : PDict) : Option String :=
  match extractFromKeys c publicIdKeys with
  | some v => some v
  | none =>
      match pyOr (dget c "profileUrl") (dget c "url") with
      | PVal.vstr u =>
          if containsTok linkedinMarker u.data then
            let slug := afterLastSep linkedinMarker u.data.length u.data
            let slug := stripSlashes (slug.takeWhile (· ≠ '?'))
            if slug.isEmpty then none else some (String.mk slug)
          else none
      | _ => none

/-- Source `_candidate_name`: `fullName or name` when a nonempty string,
else the nonempty string parts among `firstName`/`lastName` joined with a
space, else `None`. -/
def candidateName (c : PDict) : Option String :=
  match pyOr (dget c "fullName") (dget c "name") with
  | PVal.vstr s =>
      if !s.isEmpty then some s else candidateNameParts c
  | _ => candidateNameParts c
where
  /-- The `firstName`/`lastName` fallback of `_candidate_name`. -/
  candidateNameParts (c : PDict) : Option String :=
    let parts := strParts c ["firstName", "lastName"]
    if parts.isEmpty then none else some (String.mk (joinSpace parts))

/-! ## Resolved identities, backend, configuration and engine state -/

/-- The dict `_lookup_profile` returns (`url` / `profile_name` / `headline` /
`confidence`); the only value exposed to callers. -/
structure Resolved where
  url : Option String
  profile_name : Option String
  headline : Option String
  confidence : Option Frac
deriving DecidableEq, Repr

/-- Keyword arguments of `client.search_people` after the falsy-value filter
of `_lookup_profile` (absent field = filtered-out empty value). -/
structure SearchArgs where
  keyword : Option String
  first_name : Option String
  last_name : Option String
  title : Option String
deriving DecidableEq, Repr

/-- Construction of `search_kwargs` in `_lookup_profile`: the keyword is
`f"{name} {job}".strip()`, the name parts come from `_split_name`, the title
is the job; empty values are removed. -/
def buildSearchArgs (name job : String) : SearchArgs :=
  let nameParts := splitName name
  let keyword := String.mk (pyStripData (name ++ " " ++ job).data)
  { keyword := if keyword.isEmpty then none else some keyword
    first_name := match nameParts.1 with
      | some s => if s.isEmpty then none else some s
      | none => none
    last_name := match nameParts.2 with
      | some s => if s.isEmpty then none else some s
      | none => none
    title := if job.isEmpty then none else some job }

/-- Oracle for the two network operations of the `linkdapi` client:
`search_people` (already normalised to the candidate list the response
parsing of `_lookup_profile` extracts) and `get_profile_overview` (the raw
response value).  `Except.error` models a raised exception. -/
structure Backend where
  searchPeople : SearchArgs → Except Unit (List PVal)
  getProfileOverview : String → Except Unit PVal

/-- Static configuration: presence of the `linkdapi` library, the
`LINKDAPI_API_KEY` value (`none` = unset), whether client construction
succeeds, `LINKDAPI_MAX_RESULTS`, and whether `LINKDAPI_REQUEST_INTERVAL`
is positive (so that `_throttled_call` takes the throttle lock). -/
structure Config where
  libAvailable : Bool
  apiKey : Option String
  initOk : Bool
  maxResults : Nat
  throttleOn : Bool

/-- Python `if not LINKDAPI_API_KEY` (unset or empty key is falsy). -/
def Config.keySet (cfg : Config) : Bool :=
  match cfg.apiKey with
  | some s => !s.isEmpty
  | none => false

/-- Counters over the process-wide shared resources: backend search calls,
profile-detail calls, throttle-lock acquisitions, semaphore acquisitions. -/
structure Counters where
  searchCalls : Nat
  detailCalls : Nat
  throttleAcq : Nat
  permitAcq : Nat
deriving DecidableEq, Repr

/-- State of the lazily initialised client singleton (`_CLIENT`,
`_CLIENT_INITIALIZED`) plus the count of warnings logged by `_get_client`. -/
structure ClientState where
  clientReady : Bool
  clientInit : Bool
  warnCount : Nat
deriving DecidableEq, Repr

/-- The module-level mutable state: result cache (`_CACHE`, newest entry
first), client singleton state, and the shared-resource counters. -/
structure EngineState where
  cache : List (String × Option Resolved)
  client : ClientState
  counters : Counters
deriving DecidableEq, Repr

/-- Lookup in the cache association list (`cache_key in _CACHE` plus read). -/
def cacheLookup (cache : List (String × Option Resolved)) (key : String) :
    Option (Option Resolved) :=
  match cache.find? (fun e => e.1 = key) with
  | some e => some e.2
  | none => none

/-- State of a freshly started process: empty cache, uninitialised client,
zero counters. -/
def freshState : EngineState :=
  { cache := []
    client := { clientReady := false, clientInit := false, warnCount := 0 }
    counters := { searchCalls := 0, detailCalls := 0, throttleAcq := 0, permitAcq := 0 } }

/-! ## `_get_client` -/

/-- Source `_get_client`: returns whether a client is available, updating the
singleton state; the unavailability warning is logged only the first time
(`_CLIENT_INITIALIZED` guard), and a failed construction leaves a permanently
disabled client. -/
def getClient (cfg : Config) (st : ClientState) : Option Unit × ClientState :=
  if !cfg.libAvailable then
    (none, if st.clientInit then st
           else { st with warnCount := st.warnCount + 1, clientInit := true })
  else if !cfg.keySet then
    (none, if st.clientInit then st
           else { st with warnCount := st.warnCount + 1, clientInit := true })
  else if st.clientReady then (some (), st)
  else if st.clientInit then (none, st)
  else if cfg.initOk then (some (), { st with clientReady := true, clientInit := true })
  else (none, { st with warnCount := st.warnCount + 1, clientInit := true })

/-! ## `_lookup_profile` -/

/-- Candidate-selection loop of `_lookup_profile` (lines 243-252): iterate in
search order over the truncated candidate list, skip non-dict entries, and
replace the running best exactly when the score is strictly greater than the
running best score or no best exists yet. -/
def selectLoop (tokens : List (List Char)) :
    List PVal → Option PDict → Frac → Option PDict × Frac
  | [], best, bestScore => (best, bestScore)
  | c :: rest, best, bestScore =>
      match c with
      | PVal.vdict d =>
          let score := scoreText (candidateText d) tokens
          if Frac.ltB bestScore score || best.isNone then
            selectLoop tokens rest (some d) score
          else
            selectLoop tokens rest best bestScore
      | _ => selectLoop tokens rest best bestScore

/-- Selection across candidates as performed by `_lookup_profile`: the loop
above started from no best and score `0.0`, over the first
`LINKDAPI_MAX_RESULTS` candidates. -/
def selectBest (maxResults : Nat) (cands : List PVal) (tokens : List (List Char)) :
    Option PDict × Frac :=
  selectLoop tokens (cands.take maxResults) none Frac.zero

/-- Python truthiness of the `profile_details` variable (`None` or a dict). -/
def detailsTruthy : Option PDict → Bool
  | some d => !d.isEmpty
  | none => false

/-- Headline fallback to the search candidate
(`isinstance(best_candidate.get("headline"), str)`, empty string allowed). -/
def candHeadline (best : PDict) : Option String :=
  match dget best "headline" with
  | PVal.vstr h => some h
  | _ => none

/-- Assembly of the returned dict in `_lookup_profile` (lines 273-293) from
the chosen candidate, its public identifier, the optional profile details and
the final best score. -/
def assembleResult (best : PDict) (publicId : Option String)
    (pd : Option PDict) (bestScore : Frac) : Resolved :=
  let url := publicId.map (fun pid => "https://www.linkedin.com/in/" ++ pid)
  let headline :=
    if detailsTruthy pd then
      match dget (pd.getD []) "headline" with
      | PVal.vstr h => some h
      | _ => candHeadline best
    else candHeadline best
  let profileName :=
    if detailsTruthy pd then
      match dget (pd.getD []) "fullName" with
      | PVal.vstr s => some s
      | _ => candidateName best
    else candidateName best
  { url := url
    profile_name := profileName
    headline := headline
    confidence := if Frac.posB bestScore then some (Frac.round2 bestScore) else none }

/-- Bump the counters for one `_throttled_call` around a backend search. -/
def Counters.bumpSearch (cfg : Config) (ct : Counters) : Counters :=
  { ct with searchCalls := ct.searchCalls + 1
            throttleAcq := ct.throttleAcq + (if cfg.throttleOn then 1 else 0) }

/-- Bump the counters for one `_throttled_call` around a profile-detail
fetch. -/
def Counters.bumpDetail (cfg : Config) (ct : Counters) : Counters :=
  { ct with detailCalls := ct.detailCalls + 1
            throttleAcq := ct.throttleAcq + (if cfg.throttleOn then 1 else 0) }

/-- The optional detail-fetch phase of `_lookup_profile` (lines 257-271):
returns the profile details (when obtained), the possibly raised best score,
and the updated counters.  A fetch failure is swallowed, keeping the
search-level pick; a successful fetch replaces the best score only when the
detail score is strictly higher. -/
def detailPhase (cfg : Config) (b : Backend) (tokens : List (List Char))
    (publicId : Option String) (bestScore : Frac) (ct : Counters) :
    Option PDict × Frac × Counters :=
  match publicId with
  | none => (none, bestScore, ct)
  | some pid =>
      let ct := ct.bumpDetail cfg
      match b.getProfileOverview pid with
      | Except.error _ => (none, bestScore, ct)
      | Except.ok resp =>
          match resp with
          | PVal.vdict rd =>
              let pd : Option PDict :=
                match dget rd "data" with
                | PVal.vdict dd => some dd
                | _ => none
              if detailsTruthy pd then
                let detailScore := scoreText (profileText (pd.getD [])) tokens
                (pd, if Frac.ltB bestScore detailScore then detailScore else bestScore, ct)
              else (pd, bestScore, ct)
          | _ => (none, bestScore, ct)

/-- Source `_lookup_profile`: search (one throttled backend call; an
exception resolves to no-match), parse candidates, select the best-scoring
candidate, optionally fetch its profile details, and assemble the result. -/
def lookupProfile (cfg : Config) (b : Backend) (name job : String)
    (ct : Counters) : Option Resolved × Counters :=
  let args := buildSearchArgs name job
  let ct := ct.bumpSearch cfg
  match b.searchPeople args with
  | Except.error _ => (none, ct)
  | Except.ok candidates =>
      if candidates.isEmpty then (none, ct)
      else
        let jobTokens := tokenizeJob job
        let (bestCandidate, bestScore) := selectBest cfg.maxResults candidates jobTokens
        match bestCandidate with
        | none => (none, ct)
        | some best =>
            let publicId := extractPublicIdentifier best
            let (pd, finalScore, ct) := detailPhase cfg b jobTokens publicId bestScore ct
            (some (assembleResult best publicId pd finalScore), ct)

/-! ## Public entry points -/

/-- Source `find_linkedin_profile`: cache check, client acquisition (an
unavailable client caches an explicit no-match), semaphore-bounded lookup,
cache write. -/
def findLinkedinProfile (cfg : Config) (b : Backend) (st : EngineState)
    (name job : String) (tmdbPersonId : Option String) :
    Option Resolved × EngineState :=
  let key := cacheKey name job tmdbPersonId
  match cacheLookup st.cache key with
  | some v => (v, st)
  | none =>
      let (client, cst) := getClient cfg st.client
      match client with
      | none => (none, { st with client := cst, cache := (key, none) :: st.cache })
      | some _ =>
          let ct := { st.counters with permitAcq := st.counters.permitAcq + 1 }
          let (res, ct) := lookupProfile cfg b name job ct
          (res, { st with client := cst, counters := ct, cache := (key, res) :: st.cache })

/-- A crew record as mutated by `enrich_crew_with_linkedin` (the `CrewMember`
model of `app.py`): identity inputs, fields the engine never touches, and the
four optional LinkedIn fields. -/
structure CrewRecord where
  name : String
  job : String
  department : String
  movie_title : String
  imdb_id : String
  tmdb_person_id : Option String
  linkedin_url : Option String
  linkedin_profile_name : Option String
  linkedin_headline : Option String
  linkedin_confidence : Option Frac
deriving DecidableEq, Repr

/-- Per-record application step of `enrich_crew_with_linkedin`
(lines 339-348): a task that raised is logged and skipped, a no-match is
skipped, and a resolved identity sets exactly the four LinkedIn fields. -/
def applyResult (m : CrewRecord) : Except Unit (Option Resolved) → CrewRecord
  | Except.error _ => m
  | Except.ok none => m
  | Except.ok (some r) =>
      { m with linkedin_url := r.url
               linkedin_profile_name := r.profile_name
               linkedin_headline := r.headline
               linkedin_confidence := r.confidence }

/-- Sequential execution of the per-record lookup tasks (the cooperative
tasks of `enrich_crew_with_linkedin` in program order). -/
def runFinds (cfg : Config) (b : Backend) :
    List CrewRecord → EngineState → List (Option Resolved) × EngineState
  | [], st => ([], st)
  | m :: rest, st =>
      let (r, st) := findLinkedinProfile cfg b st m.name m.job m.tmdb_person_id
      let (rs, st) := runFinds cfg b rest st
      (r :: rs, st)

/-- Source `enrich_crew_with_linkedin`: early return on an empty batch or an
unavailable client (no cache writes); otherwise run one lookup task per
record and apply each outcome to its record. -/
def enrichCrew (cfg : Config) (b : Backend) (st : EngineState)
    (members : List CrewRecord) : List CrewRecord × EngineState :=
  if members.isEmpty then (members, st)
  else
    let (client, cst) := getClient cfg st.client
    match client with
    | none => (members, { st with client := cst })
    | some _ =>
        let st := { st with client := cst }
        let (results, st) := runFinds cfg b members st
        (List.zipWith applyResult members (results.map Except.ok), st)

/-! ## Interleaving model of concurrent same-key lookups

`find_linkedin_profile` suspends between its cache check and its backend call
(at `_get_client` and at the semaphore), so two cooperative tasks for the
same key can interleave there.  One task is modelled at the granularity of
these suspension points: cache check, backend resolution (the whole
`_lookup_profile` call, counted as its search call), cache write. -/

/-- Program counter of one lookup task. -/
inductive TaskPc where
  | checkCache : TaskPc
  | search : TaskPc
  | write : TaskPc
  | done : TaskPc
deriving DecidableEq, Repr

/-- One lookup task: its program counter and, once computed or read from the
cache, its result. -/
structure TaskState where
  pc : TaskPc
  val : Option Resolved
deriving DecidableEq, Repr

/-- Two concurrent lookup tasks for the same key over the shared cache,
with the count of backend search calls issued. -/
structure TwoTaskSys where
  cache : List (String × Option Resolved)
  searchCalls : Nat
  t0 : TaskState
  t1 : TaskState
deriving DecidableEq, Repr

/-- Both tasks at their cache check, empty cache, no calls issued. -/
def twoTaskInit : TwoTaskSys :=
  { cache := []
    searchCalls := 0
    t0 := { pc := TaskPc.checkCache, val := none }
    t1 := { pc := TaskPc.checkCache, val := none } }

/-- Advance one task by one atomic step of `find_linkedin_profile` for key
`key`, where the backend (through `_lookup_profile`) resolves the key to
`outcome`: the cache check either finishes with the cached value or moves on,
the search issues the backend call, the write publishes the result. -/
def taskStep (key : String) (outcome : Option Resolved) (t : TaskState)
    (cache : List (String × Option Resolved)) (calls : Nat) :
    TaskState × List (String × Option Resolved) × Nat :=
  match t.pc with
  | TaskPc.checkCache =>
      match cacheLookup cache key with
      | some v => ({ pc := TaskPc.done, val := v }, cache, calls)
      | none => ({ t with pc := TaskPc.search }, cache, calls)
  | TaskPc.search => ({ pc := TaskPc.write, val := outcome }, cache, calls + 1)
  | TaskPc.write => ({ t with pc := TaskPc.done }, (key, t.val) :: cache, calls)
  | TaskPc.done => (t, cache, calls)

/-- Advance the chosen task (`false` = first, `true` = second). -/
def sysStep (key : String) (outcome : Option Resolved) (s : TwoTaskSys)
    (which : Bool) : TwoTaskSys :=
  if which then
    let (t, cache, calls) := taskStep key outcome s.t1 s.cache s.searchCalls
    { s with t1 := t, cache := cache, searchCalls := calls }
  else
    let (t, cache, calls) := taskStep key outcome s.t0 s.cache s.searchCalls
    { s with t0 := t, cache := cache, searchCalls := calls }

/-- Run the two-task system under a given cooperative schedule. -/
def sysRun (key : String) (outcome : Option Resolved) (sched : List Bool)
    (s : TwoTaskSys) : TwoTaskSys :=
  sched.foldl (sysStep key outcome) s

/-! ## Concrete scenario constants -/

/-- Configuration with the library present, a key configured, successful
client construction and the default `LINKDAPI_MAX_RESULTS = 3`,
`LINKDAPI_REQUEST_INTERVAL = 0.5`. -/
def cfgAvailable : Config :=
  { libAvailable := true, apiKey := some "k", initOk := true,
    maxResults := 3, throttleOn := true }

/-- Configuration whose `LINKDAPI_API_KEY` is unset. -/
def cfgNoKey : Config :=
  { libAvailable := true, apiKey := none, initOk := true,
    maxResults := 3, throttleOn := true }

/-- Scenario-A candidate whose only text field is the headline
`"VFX Supervisor at StudioX"`. -/
def candVfx : PVal :=
  PVal.vdict [("headline", PVal.vstr "VFX Supervisor at StudioX")]

/-- Scenario-A candidate whose only text field is the headline
`"Accountant"`. -/
def candAccountant : PVal :=
  PVal.vdict [("headline", PVal.vstr "Accountant")]

/-- Stub backend returning exactly the two scenario-A candidates; any detail
fetch would raise (none is attempted: neither candidate exposes an
identifier). -/
def backendScenarioA : Backend :=
  { searchPeople := fun _ => Except.ok [candVfx, candAccountant]
    getProfileOverview := fun _ => Except.error () }

/-- Backend whose search always succeeds with zero candidates. -/
def backendEmptySearch : Backend :=
  { searchPeople := fun _ => Except.ok []
    getProfileOverview := fun _ => Except.error () }


/-- The dict entries of a candidate list, in order (the entries the selection
loop does not skip). -/
def dictsOf (l : List PVal) : List PDict :=
  l.filterMap (fun v => match v with
    | PVal.vdict d => some d
    | _ => none)

/-- Search-payload score of one candidate dict against the job tokens. -/
def scoreOf (tokens : List (List Char)) (d : PDict) : Frac :=
  scoreText (candidateText d) tokens

/-- Sequential calls of the single-person entry point over a list of
`(name, job, person_id)` queries. -/
def runLookups (cfg : Config) (b : Backend) :
    List (String × String × Option String) → EngineState →
      List (Option Resolved) × EngineState
  | [], st => ([], st)
  | q :: rest, st =>
      let (r, st) := findLinkedinProfile cfg b st q.1 q.2.1 q.2.2
      let (rs, st) := runLookups cfg b rest st
      (r :: rs, st)

/-- Candidate carrying a public identifier (used to exercise the detail
fetch). -/
def candWithId : PDict :=
  [("headline", PVal.vstr "VFX Supervisor"),
   ("publicIdentifier", PVal.vstr "jane-doe")]

/-- Backend returning the identifier-carrying candidate whose detail fetch
raises. -/
def backendDetailFail : Backend :=
  { searchPeople := fun _ => Except.ok [PVal.vdict candWithId]
    getProfileOverview := fun _ => Except.error () }

/-- A crew record with every LinkedIn field unset. -/
def crewJane : CrewRecord :=
  { name := "Jane Doe", job := "VFX Supervisor", department := "Visual Effects"
    movie_title := "Example Movie", imdb_id := "tt0000001"
    tmdb_person_id := some "42", linkedin_url := none
    linkedin_profile_name := none, linkedin_headline := none
    linkedin_confidence := none }

/-- A sample resolved identity. -/
def sampleResolved : Resolved :=
  { url := some "https://www.linkedin.com/in/jane-doe"
    profile_name := some "Jane Doe"
    headline := some "VFX Supervisor"
    confidence := some ⟨2, 2⟩ }

/-! ## Shared helper lemmas -/

/-- Reversal preserves emptiness. -/
theorem isEmpty_reverse (l : List Char) : l.reverse.isEmpty = l.isEmpty := by
  cases l <;> simp

/-- Reading a freshly written cache entry gives back the written value. -/
theorem cacheLookup_cons_self (c : List (String × Option Resolved))
    (key : String) (v : Option Resolved) :
    cacheLookup ((key, v) :: c) key = some v := by
  simp [cacheLookup, List.find?]

/-- The boundary-empty pieces kept by `re.split` are exactly what separates
the regex split from the maximal-run reading: filtering empties from the
former yields the latter. -/
theorem reSplit_filter_runs (cs : List Char) :
    (∀ cur, (reSplitNonAlnum cs (some cur)).filter (fun l => !l.isEmpty) =
      runsBy isAlnumChar cs cur) ∧
    ((reSplitNonAlnum cs none).filter (fun l => !l.isEmpty) =
      runsBy isAlnumChar cs []) := by
  induction cs with
  | nil =>
      refine ⟨fun cur => ?_, ?_⟩
      · simp only [reSplitNonAlnum, runsBy, List.filter, isEmpty_reverse]
        cases h : cur.isEmpty <;> simp
      · simp [reSplitNonAlnum, runsBy]
  | cons c rest ih =>
      refine ⟨fun cur => ?_, ?_⟩
      · simp only [reSplitNonAlnum, runsBy]
        cases ha : isAlnumChar c
        · simp only [Bool.false_eq_true, if_false, List.filter, isEmpty_reverse]
          cases hc : cur.isEmpty
          · simpa using ih.2
          · simpa using ih.2
        · simpa using ih.1 (c :: cur)
      · simp only [reSplitNonAlnum, runsBy]
        cases ha : isAlnumChar c
        · simpa using ih.2
        · simpa using ih.1 [c]

/-- Filtering for length greater than 2 subsumes filtering out empties. -/
theorem filter_len_filter_empty (l : List (List Char)) :
    l.filter (fun t => 2 < t.length) =
      (l.filter (fun t => !t.isEmpty)).filter (fun t => 2 < t.length) := by
  induction l with
  | nil => rfl
  | cons x rest ih =>
      cases hx : x.isEmpty
      · simp only [List.filter, hx, Bool.not_false, ih]
      · have : x = [] := by simpa using hx
        subst this
        simpa using ih

/-! ## C8: the job tokenizer -/

/-- C8: for every input string, `_tokenize_job` lower-cases it, splits it on
every maximal run of non-alphanumeric characters (the maximal `[a-z0-9]` runs
survive), and drops exactly the tokens of length at most 2; in particular
`tokenize_job("VFX Supervisor!!") = ["vfx", "supervisor"]`. -/
theorem c8_tokenize_job_spec (s : String) :
    tokenizeJob s =
      (runsBy isAlnumChar (lowerData s.data) []).filter (fun t => 2 < t.length) ∧
    tokenizeJob "VFX Supervisor!!" = ["vfx".data, "supervisor".data] := by
  constructor
  · rw [tokenizeJob, filter_len_filter_empty, (reSplit_filter_runs _).1]
  · decide

/-! ## C1: concrete scenario A -/

/-- C1 counterexample: in scenario A (query `name="Jane Doe"`,
`job="Visual Effects Supervisor"`, stub backend returning the two concrete
candidates, no detail fetch), the resolver does select the first candidate
but reports confidence `0.33`, not the claimed `≈ 0.67`: only the token
`"supervisor"` occurs as a substring of `"vfx supervisor at studiox"`;
`"visual"` and `"effects"` do not, so the score is `1/3`, not `2/3`. -/
theorem c1_counterexample :
    (findLinkedinProfile cfgAvailable backendScenarioA freshState
        "Jane Doe" "Visual Effects Supervisor" none).1 =
      some { url := none, profile_name := none,
             headline := some "VFX Supervisor at StudioX",
             confidence := some ⟨33, 100⟩ } ∧
    Frac.toQ ⟨33, 100⟩ ≠ Frac.toQ ⟨67, 100⟩ := by
  constructor
  · decide
  · intro h
    simp only [Frac.toQ] at h
    norm_num at h

/-- C1 amended: in scenario A the resolver selects the first candidate (its
headline is returned) and reports confidence `0.33` (the rounded `1/3`:
exactly one of the three job tokens, `"supervisor"`, occurs in the
candidate's aggregated text), with no detail fetch performed. -/
theorem c1_amended :
    (findLinkedinProfile cfgAvailable backendScenarioA freshState
        "Jane Doe" "Visual Effects Supervisor" none).1 =
      some { url := none, profile_name := none,
             headline := some "VFX Supervisor at StudioX",
             confidence := some (Frac.round2 ⟨1, 3⟩) } ∧
    Frac.round2 ⟨1, 3⟩ = ⟨33, 100⟩ ∧
    tokenizeJob "Visual Effects Supervisor" =
      ["visual".data, "effects".data, "supervisor".data] ∧
    (findLinkedinProfile cfgAvailable backendScenarioA freshState
        "Jane Doe" "Visual Effects Supervisor" none).2.counters.detailCalls = 0 := by
  refine ⟨by decide, by decide, by decide, by decide⟩

/-! ## C2: concurrent same-key lookups -/

/-- C2 counterexample: two concurrent lookup tasks for the same cache key,
neither having cached a result yet, can both pass the cache check before
either writes, and the interleaving
`check₀, check₁, search₀, search₁, write₀, write₁` issues two backend search
calls for that key — the de-duplication invariant fails on the source. -/
theorem c2_counterexample :
    (sysRun (cacheKey "Jane Doe" "Visual Effects Supervisor" none) none
        [false, true, false, true, false, true] twoTaskInit).searchCalls = 2 := by
  decide

/-- C2 amended: the source has no in-flight de-duplication, so two lookups
for the same key avoid a duplicate backend search call only when they do not
overlap: if the second task takes its first step after the first task has
completed (schedule `check₀, search₀, write₀, check₁`), exactly one backend
search call is issued, and the second task finishes immediately with the
first task's cached result. -/
theorem c2_amended (outcome : Option Resolved) (key : String) :
    (sysRun key outcome [false, false, false, true] twoTaskInit).searchCalls = 1 ∧
    (sysRun key outcome [false, false, false, true] twoTaskInit).t1 =
      { pc := TaskPc.done, val := outcome } := by
  constructor <;>
    simp [sysRun, sysStep, taskStep, twoTaskInit, cacheLookup, List.find?]

/-! ## C9: score monotonicity and range -/

/-- Unfolding equation for `_score_text`. -/
theorem scoreText_eq (t : List Char) (tokens : List (List Char)) :
    scoreText t tokens =
      if t.isEmpty || tokens.isEmpty then Frac.zero
      else if tokens.countP (fun tok => containsTok tok t) = 0 then Frac.zero
      else ⟨tokens.countP (fun tok => containsTok tok t), tokens.length⟩ := rfl

/-- The zero score denotes the rational 0. -/
theorem fracZero_toQ : Frac.zero.toQ = 0 := by
  simp [Frac.toQ, Frac.zero]

/-- A nonempty token cannot occur in the empty text. -/
theorem containsTok_nil (tok : List Char) (h : tok ≠ []) :
    containsTok tok [] = false := by
  cases tok with
  | nil => exact absurd rfl h
  | cons c cs => simp [containsTok, List.isPrefixOf]

/-- Scores always lie inside `[0, 1]`. -/
theorem scoreText_bounds (t : List Char) (tokens : List (List Char)) :
    0 ≤ (scoreText t tokens).toQ ∧ (scoreText t tokens).toQ ≤ 1 := by
  rw [scoreText_eq]
  split
  · simp [fracZero_toQ]
  · next hguard =>
    split
    · simp [fracZero_toQ]
    · next hm =>
      have htok : tokens ≠ [] := by
        intro h
        subst h
        simp at hguard
      have hlen : 0 < tokens.length := List.length_pos.mpr htok
      have hcount : tokens.countP (fun tok => containsTok tok t) ≤ tokens.length :=
        List.countP_le_length _
      constructor
      · apply div_nonneg <;> positivity
      · rw [Frac.toQ]
        rw [div_le_one (by exact_mod_cast hlen)]
        exact_mod_cast hcount

/-- C9: for every fixed non-empty sequence of job tokens (each of length
greater than 2, as `_tokenize_job` produces) and every pair of texts such
that every token found in the first text is also found in the second, the
score of the second text is at least the score of the first; and every score
lies in `[0, 1]`. -/
theorem c9_score_monotone (tokens : List (List Char))
    (hne : tokens ≠ []) (htok : ∀ tok ∈ tokens, 2 < tok.length) :
    (∀ t1 t2 : List Char,
      (∀ tok ∈ tokens, containsTok tok t1 = true → containsTok tok t2 = true) →
      (scoreText t1 tokens).toQ ≤ (scoreText t2 tokens).toQ) ∧
    (∀ t : List Char,
      0 ≤ (scoreText t tokens).toQ ∧ (scoreText t tokens).toQ ≤ 1) := by
  refine ⟨fun t1 t2 hsub => ?_, fun t => scoreText_bounds t tokens⟩
  by_cases h1 : t1.isEmpty = true
  · rw [scoreText_eq]
    simp only [h1, Bool.true_or, if_true, fracZero_toQ]
    exact (scoreText_bounds t2 tokens).1
  by_cases hm1 : tokens.countP (fun tok => containsTok tok t1) = 0
  · rw [scoreText_eq t1]
    simp only [h1, Bool.false_or, hm1, if_true]
    have : tokens.isEmpty = false := by simpa using hne
    simp only [this, Bool.false_eq_true, if_false, fracZero_toQ]
    exact (scoreText_bounds t2 tokens).1
  · -- some token occurs in t1, hence in t2; counts are monotone
    obtain ⟨tok, htokmem, htokt1⟩ :=
      List.countP_pos_iff.mp (Nat.pos_of_ne_zero hm1)
    have htokt2 : containsTok tok t2 = true := hsub tok htokmem htokt1
    have h2 : t2.isEmpty = false := by
      cases ht2 : t2.isEmpty
      · rfl
      · exfalso
        have ht2' : t2 = [] := by simpa using ht2
        rw [ht2'] at htokt2
        rw [containsTok_nil tok] at htokt2
        · exact Bool.false_ne_true htokt2
        · intro h
          have := htok tok htokmem
          rw [h] at this
          simp at this
    have hmono : tokens.countP (fun tok => containsTok tok t1) ≤
        tokens.countP (fun tok => containsTok tok t2) :=
      List.countP_mono_left (fun tok hmem h => hsub tok hmem h)
    have hm2 : tokens.countP (fun tok => containsTok tok t2) ≠ 0 := by
      intro h
      exact hm1 (Nat.le_zero.mp (h ▸ hmono))
    have htoknil : tokens.isEmpty = false := by simpa using hne
    rw [scoreText_eq t1, scoreText_eq t2]
    simp only [h1, h2, htoknil, Bool.or_self, Bool.false_eq_true, if_false,
      hm1, hm2, Frac.toQ]
    apply div_le_div_of_nonneg_right ?_ ?_
    · exact_mod_cast hmono
    · have : 0 < tokens.length := List.length_pos.mpr hne
      have : (0 : ℚ) < tokens.length := by exact_mod_cast this
      exact this.le

/-- C9 witness: a concrete instantiation of the monotonicity statement with
the two-token job `"vfx supervisor"` and texts where the second contains a
superset of the matched tokens. -/
theorem c9_score_monotone_witness :
    (["vfx".data, "supervisor".data] ≠ ([] : List (List Char))) ∧
    (∀ tok ∈ ["vfx".data, "supervisor".data], 2 < tok.length) ∧
    (scoreText "lead supervisor".data ["vfx".data, "supervisor".data]).toQ ≤
      (scoreText "vfx supervisor".data ["vfx".data, "supervisor".data]).toQ :=
  ⟨by decide, by decide,
    (c9_score_monotone ["vfx".data, "supervisor".data] (by decide) (by decide)).1
      "lead supervisor".data "vfx supervisor".data (by decide)⟩

/-! ## C5: selection policy -/

/-- Boolean score comparison agrees with the rational order when both
denominators are positive. -/
theorem fracLt_iff (a b : Frac) (ha : 0 < a.den) (hb : 0 < b.den) :
    Frac.ltB a b = true ↔ a.toQ < b.toQ := by
  simp only [Frac.ltB, decide_eq_true_eq, Frac.toQ]
  rw [div_lt_div_iff₀ (by exact_mod_cast ha) (by exact_mod_cast hb)]
  constructor <;> intro h <;> exact_mod_cast h

/-- Every score the engine computes has a positive denominator. -/
theorem scoreText_den_pos (t : List Char) (tokens : List (List Char)) :
    0 < (scoreText t tokens).den := by
  rw [scoreText_eq]
  split
  · simp [Frac.zero]
  · next hguard =>
    split
    · simp [Frac.zero]
    · simp only []
      have : tokens.isEmpty = false := by
        cases h : tokens.isEmpty
        · rfl
        · exfalso
          apply hguard
          simp [h]
      have : tokens ≠ [] := by simpa using this
      exact List.length_pos.mpr this

/-- Positive-denominator fact transported to `scoreOf`. -/
theorem scoreOf_den_pos (tokens : List (List Char)) (d : PDict) :
    0 < (scoreOf tokens d).den := scoreText_den_pos _ _

/-- Elements of an earliest-argmax decomposition are all bounded by the
selected element's score. -/
theorem decomp_all_le (tokens : List (List Char)) (c : PDict)
    (pre post : List PDict)
    (hpre : ∀ p ∈ pre, (scoreOf tokens p).toQ < (scoreOf tokens c).toQ)
    (hpost : ∀ q ∈ post, (scoreOf tokens q).toQ ≤ (scoreOf tokens c).toQ) :
    ∀ x ∈ pre ++ c :: post, (scoreOf tokens x).toQ ≤ (scoreOf tokens c).toQ := by
  intro x hx
  rcases List.mem_append.mp hx with h | h
  · exact (hpre x h).le
  · rcases List.mem_cons.mp h with h | h
    · exact h ▸ le_refl _
    · exact hpost x h

/-- Running the selection loop from an existing best `b` selects the
earliest maximal-score element of `b` followed by the remaining dict
candidates: earlier elements score strictly less, later ones at most as
much. -/
theorem selectLoop_spec (tokens : List (List Char)) (l : List PVal) :
    ∀ b : PDict,
      ∃ c pre post,
        selectLoop tokens l (some b) (scoreOf tokens b) = (some c, scoreOf tokens c) ∧
        b :: dictsOf l = pre ++ c :: post ∧
        (∀ p ∈ pre, (scoreOf tokens p).toQ < (scoreOf tokens c).toQ) ∧
        (∀ q ∈ post, (scoreOf tokens q).toQ ≤ (scoreOf tokens c).toQ) := by
  induction l with
  | nil =>
      intro b
      exact ⟨b, [], [], by simp [selectLoop], by simp [dictsOf], by simp, by simp⟩
  | cons v rest ih =>
      intro b
      match v with
      | PVal.vnone =>
          obtain ⟨c, pre, post, h1, h2, h3, h4⟩ := ih b
          exact ⟨c, pre, post, h1, by simpa [dictsOf] using h2, h3, h4⟩
      | PVal.vstr s =>
          obtain ⟨c, pre, post, h1, h2, h3, h4⟩ := ih b
          exact ⟨c, pre, post, h1, by simpa [dictsOf] using h2, h3, h4⟩
      | PVal.vlist xs =>
          obtain ⟨c, pre, post, h1, h2, h3, h4⟩ := ih b
          exact ⟨c, pre, post, h1, by simpa [dictsOf] using h2, h3, h4⟩
      | PVal.vdict d =>
          have hdicts : dictsOf (PVal.vdict d :: rest) = d :: dictsOf rest := by
            simp [dictsOf]
          by_cases hlt : Frac.ltB (scoreOf tokens b) (scoreOf tokens d) = true
          · have hstep : selectLoop tokens (PVal.vdict d :: rest) (some b)
                (scoreOf tokens b) =
                selectLoop tokens rest (some d) (scoreOf tokens d) := by
              have hlt' : Frac.ltB (scoreText (candidateText b) tokens)
                  (scoreText (candidateText d) tokens) = true := hlt
              simp [selectLoop, scoreOf, hlt']
            obtain ⟨c, pre, post, h1, h2, h3, h4⟩ := ih d
            have hblt : (scoreOf tokens b).toQ < (scoreOf tokens d).toQ :=
              (fracLt_iff _ _ (scoreOf_den_pos tokens b) (scoreOf_den_pos tokens d)).mp hlt
            have hdle : (scoreOf tokens d).toQ ≤ (scoreOf tokens c).toQ := by
              have := decomp_all_le tokens c pre post h3 h4 d
              rw [← h2] at this
              exact this (List.mem_cons_self d _)
            refine ⟨c, b :: pre, post, hstep.trans h1, ?_, ?_, h4⟩
            · rw [hdicts, List.cons_append, ← h2]
            · intro p hp
              rcases List.mem_cons.mp hp with h | h
              · exact h ▸ hblt.trans_le hdle
              · exact h3 p h
          · have hstep : selectLoop tokens (PVal.vdict d :: rest) (some b)
                (scoreOf tokens b) =
                selectLoop tokens rest (some b) (scoreOf tokens b) := by
              have hlt' : Frac.ltB (scoreText (candidateText b) tokens)
                  (scoreText (candidateText d) tokens) = false :=
                Bool.not_eq_true _ ▸ eq_false_of_ne_true hlt
              simp [selectLoop, scoreOf, hlt']
            obtain ⟨c, pre, post, h1, h2, h3, h4⟩ := ih b
            have hdle : (scoreOf tokens d).toQ ≤ (scoreOf tokens b).toQ := by
              rw [← not_lt]
              intro hcon
              exact hlt ((fracLt_iff _ _ (scoreOf_den_pos tokens b)
                (scoreOf_den_pos tokens d)).mpr hcon)
            match pre, h2 with
            | [], h2 =>
                have hbc : b = c := by
                  simpa using congrArg (fun l => l.head?) h2
                have hpost : dictsOf rest = post := by
                  simpa using congrArg (fun l => l.tail) h2
                refine ⟨c, [], d :: post, hstep.trans h1, ?_, by simp, ?_⟩
                · rw [hdicts, ← hbc, ← hpost]
                  simp
                · intro q hq
                  rcases List.mem_cons.mp hq with h | h
                  · exact h ▸ (hbc ▸ hdle)
                  · exact h4 q h
            | p :: pre₂, h2 =>
                have hbp : b = p := by
                  simpa using congrArg (fun l => l.head?) h2
                have hrest : dictsOf rest = pre₂ ++ c :: post := by
                  simpa using congrArg (fun l => l.tail) h2
                have hbmem : (scoreOf tokens b).toQ < (scoreOf tokens c).toQ :=
                  hbp ▸ h3 p (List.mem_cons_self p pre₂)
                refine ⟨c, b :: d :: pre₂, post, hstep.trans h1, ?_, ?_, h4⟩
                · rw [hdicts, hrest]
                  simp
                · intro x hx
                  rcases List.mem_cons.mp hx with h | h
                  · exact h ▸ hbmem
                  · rcases List.mem_cons.mp h with h | h
                    · exact h ▸ hdle.trans_lt hbmem
                    · exact h3 x (List.mem_cons_of_mem p h)

/-- Starting from no running best, the first dict candidate becomes the best
and the loop selects the earliest maximal-score dict candidate. -/
theorem selectLoop_none_spec (tokens : List (List Char)) (l : List PVal)
    (hne : (dictsOf l).isEmpty = false) :
    ∃ c pre post,
      selectLoop tokens l none Frac.zero = (some c, scoreOf tokens c) ∧
      dictsOf l = pre ++ c :: post ∧
      (∀ p ∈ pre, (scoreOf tokens p).toQ < (scoreOf tokens c).toQ) ∧
      (∀ q ∈ post, (scoreOf tokens q).toQ ≤ (scoreOf tokens c).toQ) := by
  induction l with
  | nil => simp [dictsOf] at hne
  | cons v rest ih =>
      match v with
      | PVal.vnone =>
          have h : (dictsOf rest).isEmpty = false := by simpa [dictsOf] using hne
          obtain ⟨c, pre, post, h1, h2, h3, h4⟩ := ih h
          exact ⟨c, pre, post, h1, by simpa [dictsOf] using h2, h3, h4⟩
      | PVal.vstr s =>
          have h : (dictsOf rest).isEmpty = false := by simpa [dictsOf] using hne
          obtain ⟨c, pre, post, h1, h2, h3, h4⟩ := ih h
          exact ⟨c, pre, post, h1, by simpa [dictsOf] using h2, h3, h4⟩
      | PVal.vlist xs =>
          have h : (dictsOf rest).isEmpty = false := by simpa [dictsOf] using hne
          obtain ⟨c, pre, post, h1, h2, h3, h4⟩ := ih h
          exact ⟨c, pre, post, h1, by simpa [dictsOf] using h2, h3, h4⟩
      | PVal.vdict d =>
          have hstep : selectLoop tokens (PVal.vdict d :: rest) none Frac.zero =
              selectLoop tokens rest (some d) (scoreOf tokens d) := by
            simp [selectLoop, scoreOf]
          obtain ⟨c, pre, post, h1, h2, h3, h4⟩ := selectLoop_spec tokens rest d
          exact ⟨c, pre, post, hstep.trans h1, by simpa [dictsOf] using h2, h3, h4⟩

/-- C5: selection iterates in search order; the first dict candidate becomes
the running best and is replaced only by strictly greater scores, so the
selected candidate is the earliest one attaining the maximal score among the
first `LINKDAPI_MAX_RESULTS` dict candidates — in particular, when all
considered candidates score 0, the first one is selected. -/
theorem c5_selection_policy (maxR : Nat) (tokens : List (List Char))
    (cands : List PVal) (hne : (dictsOf (cands.take maxR)).isEmpty = false) :
    ∃ c pre post,
      selectBest maxR cands tokens = (some c, scoreOf tokens c) ∧
      dictsOf (cands.take maxR) = pre ++ c :: post ∧
      (∀ p ∈ pre, (scoreOf tokens p).toQ < (scoreOf tokens c).toQ) ∧
      (∀ q ∈ post, (scoreOf tokens q).toQ ≤ (scoreOf tokens c).toQ) ∧
      ((∀ x ∈ dictsOf (cands.take maxR), scoreOf tokens x = Frac.zero) →
        dictsOf (cands.take maxR) = c :: post) := by
  obtain ⟨c, pre, post, h1, h2, h3, h4⟩ :=
    selectLoop_none_spec tokens (cands.take maxR) hne
  refine ⟨c, pre, post, h1, h2, h3, h4, fun hzero => ?_⟩
  have hpre : pre = [] := by
    cases pre with
    | nil => rfl
    | cons p pre₂ =>
        exfalso
        have hp : p ∈ dictsOf (cands.take maxR) := by
          rw [h2]; exact List.mem_append_left _ (List.mem_cons_self p pre₂)
        have hc : c ∈ dictsOf (cands.take maxR) := by
          rw [h2]
          exact List.mem_append_right _ (List.mem_cons_self c post)
        have := h3 p (List.mem_cons_self p pre₂)
        rw [hzero p hp, hzero c hc] at this
        exact lt_irrefl _ this
  rw [hpre] at h2
  simpa using h2

/-- C5 witness: the policy instantiated on scenario A's candidate list
(two dict candidates, the second scoring 0). -/
theorem c5_selection_policy_witness :
    (dictsOf ([candVfx, candAccountant].take 3)).isEmpty = false ∧
    ∃ c pre post,
      selectBest 3 [candVfx, candAccountant]
          (tokenizeJob "Visual Effects Supervisor") =
        (some c, scoreOf (tokenizeJob "Visual Effects Supervisor") c) ∧
      dictsOf ([candVfx, candAccountant].take 3) = pre ++ c :: post ∧
      (∀ p ∈ pre,
        (scoreOf (tokenizeJob "Visual Effects Supervisor") p).toQ <
          (scoreOf (tokenizeJob "Visual Effects Supervisor") c).toQ) ∧
      (∀ q ∈ post,
        (scoreOf (tokenizeJob "Visual Effects Supervisor") q).toQ ≤
          (scoreOf (tokenizeJob "Visual Effects Supervisor") c).toQ) ∧
      ((∀ x ∈ dictsOf ([candVfx, candAccountant].take 3),
          scoreOf (tokenizeJob "Visual Effects Supervisor") x = Frac.zero) →
        dictsOf ([candVfx, candAccountant].take 3) = c :: post) :=
  ⟨by decide,
    c5_selection_policy 3 (tokenizeJob "Visual Effects Supervisor")
      [candVfx, candAccountant] (by decide)⟩

/-! ## C6: detail-fetch failure handling -/

/-- C6: whenever the backend search succeeds and a best candidate with a
public identifier is selected, a failing detail fetch does not discard the
pick — the lookup still returns the identity assembled from the search-level
candidate fields and score; and a successful detail fetch replaces the score
only when the detail score is strictly higher. -/
theorem c6_detail_fetch (cfg : Config) (b : Backend) (name job : String)
    (ct : Counters) (cands : List PVal) (best : PDict) (s : Frac) (pid : String)
    (hsearch : b.searchPeople (buildSearchArgs name job) = Except.ok cands)
    (hcands : cands.isEmpty = false)
    (hsel : selectBest cfg.maxResults cands (tokenizeJob job) = (some best, s))
    (hpid : extractPublicIdentifier best = some pid) :
    (b.getProfileOverview pid = Except.error () →
      (lookupProfile cfg b name job ct).1 =
        some (assembleResult best (some pid) none s)) ∧
    (∀ rd dd, b.getProfileOverview pid = Except.ok (PVal.vdict rd) →
      dget rd "data" = PVal.vdict dd → dd.isEmpty = false →
      (lookupProfile cfg b name job ct).1 =
        some (assembleResult best (some pid) (some dd)
          (if Frac.ltB s (scoreText (profileText dd) (tokenizeJob job))
           then scoreText (profileText dd) (tokenizeJob job) else s))) := by
  constructor
  · intro hfail
    simp only [lookupProfile, hsearch, hcands, hsel, detailPhase, hpid, hfail,
      Bool.false_eq_true, if_false]
  · intro rd dd hok hdata hdd
    simp only [lookupProfile, hsearch, hcands, hsel, detailPhase, hpid, hok,
      hdata, Bool.false_eq_true, if_false]
    simp only [detailsTruthy, hdd, Bool.not_false, if_true, Option.getD_some]

/-- C6 witness: the failure branch instantiated with the identifier-carrying
candidate and the failing-detail backend. -/
theorem c6_detail_fetch_witness :
    backendDetailFail.getProfileOverview "jane-doe" = Except.error () ∧
    (lookupProfile cfgAvailable backendDetailFail "Jane Doe" "VFX Supervisor"
        freshState.counters).1 =
      some (assembleResult candWithId (some "jane-doe") none ⟨2, 2⟩) :=
  ⟨rfl,
    (c6_detail_fetch cfgAvailable backendDetailFail "Jane Doe" "VFX Supervisor"
        freshState.counters [PVal.vdict candWithId] candWithId ⟨2, 2⟩ "jane-doe"
        rfl rfl rfl rfl).1 rfl⟩

/-! ## C3: idempotence of the single-person entry point -/

/-- Counter bookkeeping of the detail phase never touches the search-call
counter. -/
theorem detailPhase_searchCalls (cfg : Config) (b : Backend)
    (tokens : List (List Char)) (publicId : Option String) (s : Frac)
    (ct : Counters) :
    (detailPhase cfg b tokens publicId s ct).2.2.searchCalls = ct.searchCalls := by
  unfold detailPhase
  rcases publicId with _ | pid
  · rfl
  · dsimp only
    generalize b.getProfileOverview pid = ov
    cases ov with
    | error e => rfl
    | ok resp =>
        cases resp with
        | vnone => rfl
        | vstr s2 => rfl
        | vlist l => rfl
        | vdict rd =>
            dsimp only
            split <;> rfl

/-- One `_lookup_profile` call issues exactly one backend search call. -/
theorem lookupProfile_searchCalls (cfg : Config) (b : Backend)
    (name job : String) (ct : Counters) :
    (lookupProfile cfg b name job ct).2.searchCalls = ct.searchCalls + 1 := by
  unfold lookupProfile
  dsimp only
  generalize b.searchPeople (buildSearchArgs name job) = sr
  cases sr with
  | error e => simp [Counters.bumpSearch]
  | ok cands =>
      dsimp only
      cases hc : cands.isEmpty with
      | true => simp [hc, Counters.bumpSearch]
      | false =>
          simp only [hc, Bool.false_eq_true, if_false]
          generalize (selectBest cfg.maxResults cands (tokenizeJob job)).1 = bc
          cases bc with
          | none => simp [Counters.bumpSearch]
          | some best =>
              dsimp only
              rw [detailPhase_searchCalls]
              simp [Counters.bumpSearch]

/-- Every completed call leaves its own key mapped to its own result in the
cache. -/
theorem find_writes_cache (cfg : Config) (b : Backend) (st : EngineState)
    (name job : String) (pid : Option String) :
    cacheLookup (findLinkedinProfile cfg b st name job pid).2.cache
        (cacheKey name job pid) =
      some (findLinkedinProfile cfg b st name job pid).1 := by
  unfold findLinkedinProfile
  cases h : cacheLookup st.cache (cacheKey name job pid) with
  | some v => simp [h]
  | none =>
      rcases hgc : getClient cfg st.client with ⟨cl, cst⟩
      cases cl with
      | none => simp [h, hgc, cacheLookup_cons_self]
      | some u =>
          rcases hlp : lookupProfile cfg b name job
              { st.counters with permitAcq := st.counters.permitAcq + 1 } with ⟨res, ct⟩
          simp [h, hgc, hlp, cacheLookup_cons_self]

/-- C3: calling the single-person entry point a second time after a
completed first call returns the identical result and leaves the state
untouched (in particular no additional backend search call), while the first
call issues at most one backend search call. -/
theorem c3_cached_idempotence (cfg : Config) (b : Backend) (st : EngineState)
    (name job : String) (pid : Option String) :
    findLinkedinProfile cfg b (findLinkedinProfile cfg b st name job pid).2
        name job pid =
      ((findLinkedinProfile cfg b st name job pid).1,
       (findLinkedinProfile cfg b st name job pid).2) ∧
    (findLinkedinProfile cfg b st name job pid).2.counters.searchCalls ≤
      st.counters.searchCalls + 1 := by
  constructor
  · have hcache := find_writes_cache cfg b st name job pid
    generalize (findLinkedinProfile cfg b st name job pid) = p at hcache ⊢
    unfold findLinkedinProfile
    simp [hcache]
  · unfold findLinkedinProfile
    cases h : cacheLookup st.cache (cacheKey name job pid) with
    | some v => simp [h]
    | none =>
        rcases hgc : getClient cfg st.client with ⟨cl, cst⟩
        cases cl with
        | none => simp [h, hgc]
        | some u =>
            rcases hlp : lookupProfile cfg b name job
                { st.counters with permitAcq := st.counters.permitAcq + 1 } with ⟨res, ct⟩
            have := lookupProfile_searchCalls cfg b name job
              { st.counters with permitAcq := st.counters.permitAcq + 1 }
            rw [hlp] at this
            dsimp only at this
            simp only [h, hgc, hlp]
            exact le_of_eq this

/-! ## C4: permanently disabled mode -/

/-- With the library missing or the key unset, `_get_client` yields no
client and logs the warning only on the first call. -/
theorem getClient_unavailable (cfg : Config) (cst : ClientState)
    (hU : cfg.libAvailable = false ∨ cfg.keySet = false) :
    getClient cfg cst =
      (none, if cst.clientInit then cst
             else { cst with warnCount := cst.warnCount + 1, clientInit := true }) := by
  unfold getClient
  rcases hU with h | h
  · simp [h]
  · cases hlib : cfg.libAvailable <;> simp [h, hlib]

/-- One disabled-mode call: no match, untouched counters, an all-no-match
cache, and the client marked initialised with exactly one warning logged. -/
theorem find_disabled_step (cfg : Config) (b : Backend) (st : EngineState)
    (name job : String) (pid : Option String)
    (hU : cfg.libAvailable = false ∨ cfg.keySet = false)
    (hcache : ∀ kv ∈ st.cache, kv.2 = (none : Option Resolved))
    (hfresh : st.client.clientInit = false → st.client.warnCount = 0 ∧ st.cache = [])
    (hwarm : st.client.clientInit = true → st.client.warnCount = 1) :
    (findLinkedinProfile cfg b st name job pid).1 = none ∧
    (findLinkedinProfile cfg b st name job pid).2.counters = st.counters ∧
    (∀ kv ∈ (findLinkedinProfile cfg b st name job pid).2.cache,
      kv.2 = (none : Option Resolved)) ∧
    (findLinkedinProfile cfg b st name job pid).2.client.clientInit = true ∧
    (findLinkedinProfile cfg b st name job pid).2.client.warnCount = 1 := by
  unfold findLinkedinProfile
  cases h : cacheLookup st.cache (cacheKey name job pid) with
  | some v =>
      have hmem : ∃ e ∈ st.cache, e.2 = v := by
        unfold cacheLookup at h
        cases hf : st.cache.find? (fun e => e.1 = cacheKey name job pid) with
        | none => rw [hf] at h; exact absurd h (by simp)
        | some e =>
            rw [hf] at h
            refine ⟨e, List.mem_of_find?_eq_some hf, ?_⟩
            simpa using h
      obtain ⟨e, hemem, hev⟩ := hmem
      have hv : v = none := hev ▸ hcache e hemem
      have hinit : st.client.clientInit = true := by
        cases hi : st.client.clientInit
        · exfalso
          have := (hfresh hi).2
          rw [this] at hemem
          simp at hemem
        · rfl
      subst hv
      refine ⟨by simp [h], by simp [h], ?_, by simp [h, hinit], by simp [h, hwarm hinit]⟩
      simp only [h]
      exact hcache
  | none =>
      rw [getClient_unavailable cfg st.client hU]
      have hcons : ∀ kv ∈ (cacheKey name job pid, (none : Option Resolved)) :: st.cache,
          kv.2 = (none : Option Resolved) := by
        intro kv hkv
        rcases List.mem_cons.mp hkv with hk | hk
        · rw [hk]
        · exact hcache kv hk
      cases hi : st.client.clientInit
      · have hw := hfresh hi
        refine ⟨by simp [h, hi], by simp [h, hi], ?_, by simp [h, hi], by simp [h, hi, hw.1]⟩
        simp only [h, hi]
        simpa using hcons
      · refine ⟨by simp [h, hi], by simp [h, hi], ?_, by simp [h, hi], by simp [h, hi, hwarm hi]⟩
        simp only [h, hi]
        simpa using hcons

/-- Disabled-mode runs of the single-person entry point: every result is a
no-match, the counters never move, and from a fresh client state the warning
count ends at one after any nonempty run. -/
theorem runLookups_disabled (cfg : Config) (b : Backend)
    (hU : cfg.libAvailable = false ∨ cfg.keySet = false) :
    ∀ (qs : List (String × String × Option String)) (st : EngineState),
      (∀ kv ∈ st.cache, kv.2 = (none : Option Resolved)) →
      (st.client.clientInit = false → st.client.warnCount = 0 ∧ st.cache = []) →
      (st.client.clientInit = true → st.client.warnCount = 1) →
      (∀ r ∈ (runLookups cfg b qs st).1, r = none) ∧
      (runLookups cfg b qs st).2.counters = st.counters ∧
      (qs = [] → (runLookups cfg b qs st).2 = st) ∧
      (qs ≠ [] → (runLookups cfg b qs st).2.client.warnCount = 1) := by
  intro qs
  induction qs with
  | nil =>
      intro st h1 h2 h3
      exact ⟨by simp [runLookups], by simp [runLookups], fun _ => by simp [runLookups],
        fun h => absurd rfl h⟩
  | cons q rest ih =>
      intro st h1 h2 h3
      obtain ⟨s1, s2, s3, s4, s5⟩ := find_disabled_step cfg b st q.1 q.2.1 q.2.2 hU h1 h2 h3
      rcases hfind : findLinkedinProfile cfg b st q.1 q.2.1 q.2.2 with ⟨r0, st'⟩
      rw [hfind] at s1 s2 s3 s4 s5
      dsimp only at s1 s2 s3 s4 s5
      obtain ⟨i1, i2, i3, i4⟩ := ih st' s3 (fun h => absurd h (by simp [s4])) (fun _ => s5)
      have hrun : runLookups cfg b (q :: rest) st =
          (r0 :: (runLookups cfg b rest st').1, (runLookups cfg b rest st').2) := by
        simp [runLookups, hfind]
      refine ⟨?_, ?_, ?_, ?_⟩
      · intro r hr
        rw [hrun] at hr
        rcases List.mem_cons.mp hr with hx | hx
        · exact hx ▸ s1
        · exact i1 r hx
      · rw [hrun]
        dsimp only
        rw [i2, s2]
      · intro hx
        simp at hx
      · intro _
        rw [hrun]
        dsimp only
        cases hrest : rest.isEmpty
        · exact i4 (by simpa using hrest)
        · have hre : rest = [] := by simpa using hrest
          rw [i3 hre]
          exact s5

/-- C4: when no backend client can be obtained (missing library or missing
key), every call of the single-person entry point returns a no-match, no
search / detail / throttle / semaphore activity ever happens, and the
warning is logged exactly once per process (not once per call). -/
theorem c4_disabled_mode (cfg : Config) (b : Backend)
    (qs : List (String × String × Option String))
    (hU : cfg.libAvailable = false ∨ cfg.keySet = false) :
    (∀ r ∈ (runLookups cfg b qs freshState).1, r = none) ∧
    (runLookups cfg b qs freshState).2.counters =
      { searchCalls := 0, detailCalls := 0, throttleAcq := 0, permitAcq := 0 } ∧
    (qs ≠ [] → (runLookups cfg b qs freshState).2.client.warnCount = 1) := by
  obtain ⟨h1, h2, h3, h4⟩ := runLookups_disabled cfg b hU qs freshState
    (by simp [freshState]) (fun _ => by simp [freshState]) (by simp [freshState])
  exact ⟨h1, by rw [h2]; rfl, h4⟩

/-- C4 witness: the disabled mode exercised with an unset API key on two
concrete queries. -/
theorem c4_disabled_mode_witness :
    (cfgNoKey.keySet = false) ∧
    (∀ r ∈ (runLookups cfgNoKey backendScenarioA
        [("Jane Doe", "Visual Effects Supervisor", none),
         ("John Roe", "Compositor", some "7")] freshState).1, r = none) ∧
    (runLookups cfgNoKey backendScenarioA
        [("Jane Doe", "Visual Effects Supervisor", none),
         ("John Roe", "Compositor", some "7")] freshState).2.counters =
      { searchCalls := 0, detailCalls := 0, throttleAcq := 0, permitAcq := 0 } ∧
    (runLookups cfgNoKey backendScenarioA
        [("Jane Doe", "Visual Effects Supervisor", none),
         ("John Roe", "Compositor", some "7")] freshState).2.client.warnCount = 1 := by
  have h := c4_disabled_mode cfgNoKey backendScenarioA
    [("Jane Doe", "Visual Effects Supervisor", none),
     ("John Roe", "Compositor", some "7")] (Or.inr (by decide))
  exact ⟨by decide, h.1, h.2.1, h.2.2 (by decide)⟩

/-! ## C10: negative caching while disabled -/

/-- C10: an unavailable-client call still writes an explicit no-match entry
under the query's key; that entry is the same value a genuinely confirmed
no-match (backend available, zero results) writes, it makes every later call
for the key — even with an available backend — return the cached no-match
without touching the state, and the batch entry point in the same situation
writes no cache entries at all and leaves every record untouched. -/
theorem c10_negative_cache (cfg : Config) (b : Backend) (st : EngineState)
    (name job : String) (pid : Option String)
    (hU : cfg.libAvailable = false ∨ cfg.keySet = false)
    (hmiss : cacheLookup st.cache (cacheKey name job pid) = none) :
    (findLinkedinProfile cfg b st name job pid).1 = none ∧
    cacheLookup (findLinkedinProfile cfg b st name job pid).2.cache
        (cacheKey name job pid) = some none ∧
    (∀ (cfg' : Config) (b' : Backend),
      findLinkedinProfile cfg' b' (findLinkedinProfile cfg b st name job pid).2
          name job pid =
        (none, (findLinkedinProfile cfg b st name job pid).2)) ∧
    cacheLookup (findLinkedinProfile cfgAvailable backendEmptySearch freshState
        name job pid).2.cache (cacheKey name job pid) = some none ∧
    (∀ ms, (enrichCrew cfg b st ms).1 = ms ∧
      (enrichCrew cfg b st ms).2.cache = st.cache ∧
      (enrichCrew cfg b st ms).2.counters = st.counters) := by
  have hfind : findLinkedinProfile cfg b st name job pid =
      (none, { st with
                 cache := (cacheKey name job pid, none) :: st.cache
                 client := (getClient cfg st.client).2 }) := by
    unfold findLinkedinProfile
    dsimp only
    rw [hmiss]
    dsimp only
    rw [getClient_unavailable cfg st.client hU]
  refine ⟨by rw [hfind], ?_, ?_, ?_, ?_⟩
  · rw [hfind]
    exact cacheLookup_cons_self _ _ _
  · intro cfg' b'
    have hcached : cacheLookup (findLinkedinProfile cfg b st name job pid).2.cache
        (cacheKey name job pid) = some none := by
      rw [hfind]
      exact cacheLookup_cons_self _ _ _
    generalize (findLinkedinProfile cfg b st name job pid).2 = st1 at hcached ⊢
    unfold findLinkedinProfile
    dsimp only
    rw [hcached]
  · unfold findLinkedinProfile
    dsimp only
    have hl : cacheLookup freshState.cache (cacheKey name job pid) = none := rfl
    rw [hl]
    have hg : getClient cfgAvailable freshState.client =
        (some (), { clientReady := true, clientInit := true, warnCount := 0 }) := rfl
    rw [hg]
    dsimp only
    have hlp : ∀ ct, lookupProfile cfgAvailable backendEmptySearch name job ct =
        (none, ct.bumpSearch cfgAvailable) := fun ct => rfl
    rw [hlp]
    exact cacheLookup_cons_self _ _ _
  · intro ms
    unfold enrichCrew
    cases hms : ms.isEmpty
    · simp only [hms, Bool.false_eq_true, if_false]
      rw [getClient_unavailable cfg st.client hU]
      exact ⟨rfl, rfl, rfl⟩
    · simp [hms]

/-- C10 witness: concrete disabled-mode call followed by an available-client
retry on the same key. -/
theorem c10_negative_cache_witness :
    (cfgNoKey.keySet = false) ∧
    cacheLookup freshState.cache (cacheKey "Jane Doe" "VFX Supervisor" (some "42")) =
      none ∧
    cacheLookup (findLinkedinProfile cfgNoKey backendScenarioA freshState
        "Jane Doe" "VFX Supervisor" (some "42")).2.cache
      (cacheKey "Jane Doe" "VFX Supervisor" (some "42")) = some none ∧
    (∀ (cfg' : Config) (b' : Backend),
      findLinkedinProfile cfg' b'
          (findLinkedinProfile cfgNoKey backendScenarioA freshState
            "Jane Doe" "VFX Supervisor" (some "42")).2
          "Jane Doe" "VFX Supervisor" (some "42") =
        (none, (findLinkedinProfile cfgNoKey backendScenarioA freshState
          "Jane Doe" "VFX Supervisor" (some "42")).2)) := by
  have h := c10_negative_cache cfgNoKey backendScenarioA freshState
    "Jane Doe" "VFX Supervisor" (some "42") (Or.inr (by decide)) (by decide)
  exact ⟨by decide, by decide, h.2.1, h.2.2.1⟩

/-! ## C7: batch enrichment field discipline -/

/-- Applying an all-no-match outcome list leaves every record unchanged. -/
theorem zipWith_applyResult_none (ms : List CrewRecord) :
    List.zipWith applyResult ms (ms.map fun _ => Except.ok none) = ms := by
  induction ms with
  | nil => rfl
  | cons m rest ih =>
      simp only [List.map_cons, List.zipWith_cons_cons, ih]
      rfl

/-- The per-record task list produces one outcome per record. -/
theorem runFinds_length (cfg : Config) (b : Backend) :
    ∀ (ms : List CrewRecord) (st : EngineState),
      (runFinds cfg b ms st).1.length = ms.length := by
  intro ms
  induction ms with
  | nil => intro st; rfl
  | cons m rest ih =>
      intro st
      simp only [runFinds]
      rcases hfind : findLinkedinProfile cfg b st m.name m.job m.tmdb_person_id
        with ⟨r, st'⟩
      simp [ih st']

/-- C7: the batch entry point absorbs every per-record outcome without
raising: a raised task or a no-match leaves the record completely unchanged
(the four LinkedIn fields stay unset rather than being zeroed), a resolved
identity sets exactly the four LinkedIn fields and nothing else, and every
record the batch returns is its input record with one such outcome
applied. -/
theorem c7_enrich_field_discipline :
    (∀ (m : CrewRecord) (res : Except Unit (Option Resolved)),
      ((res = Except.error () ∨ res = Except.ok none) → applyResult m res = m) ∧
      (∀ r, res = Except.ok (some r) →
        applyResult m res =
          { m with linkedin_url := r.url
                   linkedin_profile_name := r.profile_name
                   linkedin_headline := r.headline
                   linkedin_confidence := r.confidence })) ∧
    (∀ (cfg : Config) (b : Backend) (st : EngineState) (ms : List CrewRecord),
      ∃ results : List (Except Unit (Option Resolved)),
        results.length = ms.length ∧
        (enrichCrew cfg b st ms).1 = List.zipWith applyResult ms results) := by
  constructor
  · intro m res
    constructor
    · intro h
      rcases h with h | h <;> rw [h] <;> rfl
    · intro r h
      rw [h]
      rfl
  · intro cfg b st ms
    unfold enrichCrew
    cases hms : ms.isEmpty
    · simp only [Bool.false_eq_true, if_false]
      rcases hgc : getClient cfg st.client with ⟨cl, cst⟩
      cases cl with
      | none =>
          refine ⟨ms.map fun _ => Except.ok none, by simp, ?_⟩
          rw [zipWith_applyResult_none]
      | some u =>
          refine ⟨(runFinds cfg b ms { st with client := cst }).1.map Except.ok, ?_, ?_⟩
          · simp [runFinds_length]
          · rfl
    · have : ms = [] := by simpa using hms
      subst this
      exact ⟨[], rfl, by simp⟩

/-- C7 witness: both outcome shapes applied to a concrete record. -/
theorem c7_enrich_field_discipline_witness :
    applyResult crewJane (Except.error ()) = crewJane ∧
    applyResult crewJane (Except.ok (some sampleResolved)) =
      { crewJane with
          linkedin_url := sampleResolved.url
          linkedin_profile_name := sampleResolved.profile_name
          linkedin_headline := sampleResolved.headline
          linkedin_confidence := sampleResolved.confidence } :=
  ⟨(c7_enrich_field_discipline.1 crewJane (Except.error ())).1 (Or.inl rfl),
   (c7_enrich_field_discipline.1 crewJane
      (Except.ok (some sampleResolved))).2 sampleResolved rfl⟩
